import Mathlib

set_option maxRecDepth 100000

/-!
Verification of the EasyOCR result-processing core of kreuzberg
(`kreuzberg/_ocr/_easyocr.py`, static method `EasyOCRBackend._process_easyocr_result`).

The function takes the raw list returned by the EasyOCR reader — each element either
a pre-merged `(text, confidence)` 2-tuple or a geometric `(box, text, confidence)`
3-tuple — together with the page image, and produces an `ExtractionResult` whose
content is the reconstructed reading-order text.

Numbers are modelled as exact rationals (`ℚ`); Python exceptions are modelled by an
`Except` result. Python's `sorted` is modelled by a stable insertion sort over
precomputed keys (keys are computed once per element in input order, as CPython does,
so a raising key function raises before any comparison happens).
-/

/-- A 2D coordinate: one `[x, y]` corner point of an EasyOCR bounding box. -/
structure Point where
  x : ℚ
  y : ℚ
deriving DecidableEq

/-- One element of the raw EasyOCR result list: either a pre-merged
`(text, confidence)` 2-tuple or a geometric `(box, text, confidence)` 3-tuple. -/
inductive EasyOCRItem where
  | pre (text : String) (confidence : ℚ)
  | geo (box : List Point) (text : String) (confidence : ℚ)
deriving DecidableEq

/-- Python `len(item)` on the two tuple shapes. -/
def EasyOCRItem.len : EasyOCRItem → Nat
  | .pre _ _ => 2
  | .geo _ _ _ => 3

/-- Number of points of an element's bounding box (0 for a 2-tuple, which has none). -/
def EasyOCRItem.quadLen : EasyOCRItem → Nat
  | .pre _ _ => 0
  | .geo box _ _ => box.length

/-- `Metadata(width=..., height=...)` as built at lines 220-224, 240-243 and 287-290. -/
structure Metadata where
  width : Nat
  height : Nat
deriving DecidableEq

/-- The fields of `ExtractionResult` that `_process_easyocr_result` populates. -/
structure ExtractionResult where
  content : String
  mime_type : String
  metadata : Metadata
  chunks : List String
deriving DecidableEq

/-- Python exceptions that evaluating the function body can raise. `validationError`
stands for kreuzberg's `ValidationError`; `_process_easyocr_result` itself never
raises it (in this module it is raised only by `_validate_language_code`). -/
inductive PyError where
  | indexError
  | valueError
  | validationError
deriving DecidableEq

instance {ε α : Type*} [DecidableEq ε] [DecidableEq α] : DecidableEq (Except ε α)
  | .error e, .error f => decidable_of_iff (e = f) (by simp)
  | .error _, .ok _ => .isFalse (by simp)
  | .ok _, .error _ => .isFalse (by simp)
  | .ok a, .ok b => decidable_of_iff (a = b) (by simp)

/-- Modelled constant: `PLAIN_TEXT_MIME_TYPE` is imported from
`kreuzberg._mime_types` (not among the provided sources); its exact value is
immaterial to every claim. -/
def PLAIN_TEXT_MIME_TYPE : String := "text/plain"

/-- The payload of a geometric 3-tuple `(box, text, confidence)`. -/
abbrev GeoT := List Point × String × ℚ

/-! ### Whitespace normalization (spec-modelled)

`normalize_spaces` comes from `kreuzberg._utils._string`, which is not among the
provided sources, so it is modelled from the spec (§4.4, §4.3 step 4 and the §8
examples): collapse every maximal run of space/tab characters to one space, keep
newlines as line separators, trim trailing horizontal whitespace of every line, and
shed trailing empty lines (hence the final trailing newline) at end of string. -/

/-- Space or tab: the horizontal whitespace of the normalization rule. -/
def isHBlank (c : Char) : Bool := c == ' ' || c == '\t'

/-- Collapse every maximal run of space/tab characters to a single space;
`prevBlank` records whether the previous character belonged to such a run. -/
def collapseGo : Bool → List Char → List Char
  | _, [] => []
  | prevBlank, c :: cs =>
    if isHBlank c then
      if prevBlank then collapseGo true cs else ' ' :: collapseGo true cs
    else c :: collapseGo false cs

/-- Drop the trailing spaces/tabs of a single line. -/
def trimTrailingBlanks (cs : List Char) : List Char :=
  (cs.reverse.dropWhile isHBlank).reverse

/-- Prepend a character to the first segment of a newline split. -/
def consHead (c : Char) : List (List Char) → List (List Char)
  | [] => [[c]]
  | l :: ls => (c :: l) :: ls

/-- Split a character list at newline characters; a trailing newline yields an empty
final segment, and the empty list yields one empty segment. -/
def splitNL : List Char → List (List Char)
  | [] => [[]]
  | c :: cs => if c = '\n' then [] :: splitNL cs else consHead c (splitNL cs)

/-- Drop empty trailing lines (the shedding of trailing newlines at end of string). -/
def dropTrailingEmpties (ls : List (List Char)) : List (List Char) :=
  (ls.reverse.dropWhile List.isEmpty).reverse

/-- Modelled from the spec: `normalize_spaces` of `kreuzberg._utils._string` is not
among the provided sources. Rule (spec §4.4 with the §8 examples): per line, every
maximal run of space/tab characters becomes one space and trailing horizontal
whitespace is trimmed; newlines are kept as separators; trailing empty lines at end
of string are shed. -/
def normalize_spaces (s : String) : String :=
  String.mk (List.intercalate ['\n']
    (dropTrailingEmpties
      ((splitNL s.data).map (fun l => trimTrailingBlanks (collapseGo false l)))))

/-! ### Python `sorted(…, key=…)` -/

/-- Comparison of key-decorated pairs: compare by the precomputed key. -/
def sndLE {α : Type*} (p q : α × ℚ) : Prop := p.2 ≤ q.2

instance {α : Type*} : DecidableRel (@sndLE α) :=
  fun p q => inferInstanceAs (Decidable (p.2 ≤ q.2))

instance {α : Type*} : IsTotal (α × ℚ) sndLE := ⟨fun p q => le_total p.2 q.2⟩

instance {α : Type*} : IsTrans (α × ℚ) sndLE := ⟨fun _ _ _ h h2 => le_trans h h2⟩

/-- Stable sort of key-decorated elements (Python's sort is stable). -/
def pyKeySort {α : Type*} (l : List (α × ℚ)) : List (α × ℚ) := l.insertionSort sndLE

/-- Python list indexing `l[n]`, raising `IndexError` when out of range. -/
def pyIndex {α : Type*} (l : List α) (n : Nat) : Except PyError α :=
  match l[n]? with
  | some a => .ok a
  | none => .error .indexError

/-- Compute all keys in input order, stopping at the first raising element. -/
def mapME {α β : Type*} (f : α → Except PyError β) : List α → Except PyError (List β)
  | [] => .ok []
  | a :: l =>
    match f a with
    | .error e => .error e
    | .ok b =>
      match mapME f l with
      | .error e => .error e
      | .ok bs => .ok (b :: bs)

/-- Python `sorted(l, key=f)`: the key is computed once per element in input order
(raising there if it raises), then elements are sorted stably by the computed keys. -/
def pySorted {α : Type*} (f : α → Except PyError ℚ) (l : List α) :
    Except PyError (List α) :=
  match mapME f l with
  | .error e => .error e
  | .ok ks => .ok ((pyKeySort (l.zip ks)).map Prod.fst)

/-! ### `_process_easyocr_result` -/

/-- The sort key of line 249: `lambda x: x[0][0][1] + x[0][2][1]`.
On a 2-tuple `(text, confidence)`, `x[0]` is the text string; `x[0][0]` raises
IndexError for the empty string, and otherwise is a 1-character string whose index
`[1]` is out of range — so a 2-tuple element always raises IndexError here. -/
def sortKey1 : EasyOCRItem → Except PyError ℚ
  | .pre _ _ => .error .indexError
  | .geo box _ _ =>
    match pyIndex box 0 with
    | .error e => .error e
    | .ok p0 =>
      match pyIndex box 2 with
      | .error e => .error e
      | .ok p2 => .ok (p0.y + p2.y)

/-- Tuple unpacking `box, text, confidence = item` of line 256: a 2-tuple raises
ValueError (unreachable here, since `sortKey1` already raised on any 2-tuple). -/
def unpack3 : EasyOCRItem → Except PyError GeoT
  | .pre _ _ => .error .valueError
  | .geo box text confidence => .ok (box, text, confidence)

/-- Line 257: `y_center = sum(point[1] for point in box) / 4` — the mean of the
y-coordinates of all corners, with the constant divisor 4 whatever the number of
points of the box. -/
def yCenterOf (box : List Point) : ℚ := (box.map Point.y).sum / 4

/-- The clustering sweep of lines 250-269. `prev_y_center` is assigned the current
detection's `y_center` at the end of every iteration (line 266), so each comparison
is against the immediately preceding detection of the sorted order. The final
accumulator flush of lines 268-269 happens in the base case. -/
def clusterLoop :
    List EasyOCRItem → Option ℚ → List (List GeoT) → List GeoT →
      Except PyError (List (List GeoT))
  | [], _, lineGroups, currentLine =>
    .ok (if currentLine.isEmpty then lineGroups else lineGroups ++ [currentLine])
  | item :: rest, prevYCenter, lineGroups, currentLine =>
    match unpack3 item with
    | .error e => .error e
    | .ok g =>
      let yc := yCenterOf g.1
      let isNew : Bool :=
        match prevYCenter with
        | none => true
        | some p => decide (|yc - p| > 20)
      if isNew then
        clusterLoop rest (some yc)
          (if currentLine.isEmpty then lineGroups else lineGroups ++ [currentLine]) [g]
      else
        clusterLoop rest (some yc) lineGroups (currentLine ++ [g])

/-- The horizontal sort key of line 276: `lambda x: x[0][0][0]`, the x-coordinate of
box corner 0. (A 2-tuple cannot occur here: every member of a line group was
produced by `unpack3`.) -/
def xKeyE (g : GeoT) : Except PyError ℚ :=
  match pyIndex g.1 0 with
  | .error e => .error e
  | .ok p0 => .ok p0.x

/-- Lines 278-283: append each non-empty text plus one space to the text buffer and
accumulate the (ultimately unused) confidence sum and count. -/
def composeLineFold (acc : String × ℚ × Nat) (line : List GeoT) : String × ℚ × Nat :=
  line.foldl
    (fun acc g =>
      if g.2.1 = "" then acc else (acc.1 ++ g.2.1 ++ " ", acc.2.1 + g.2.2, acc.2.2 + 1))
    acc

/-- Lines 275-285: for each clustered line, sort its members by the horizontal key,
fold them into the buffer, then append one newline regardless of content. -/
def composeGeo : List (List GeoT) → (String × ℚ × Nat) → Except PyError (String × ℚ × Nat)
  | [], acc => .ok acc
  | line :: rest, acc =>
    match pySorted xKeyE line with
    | .error e => .error e
    | .ok lineSorted =>
      let acc' := composeLineFold acc lineSorted
      composeGeo rest (acc'.1 ++ "\n", acc'.2.1, acc'.2.2)

/-- Lines 234-238: the pre-merged loop, appending `text + "\n"` per non-empty text
and accumulating the (unused) confidence sum/count. A 3-tuple cannot reach this
fold — the branch is guarded by the all-2-tuples check — so its branch is inert. -/
def preFold (acc : String × ℚ × Nat) (l : List EasyOCRItem) : String × ℚ × Nat :=
  l.foldl
    (fun acc item =>
      match item with
      | .pre text confidence =>
        if text = "" then acc
        else (acc.1 ++ text ++ "\n", acc.2.1 + confidence, acc.2.2 + 1)
      | .geo _ _ _ => acc)
    acc

/-- The geometric path after sorting (lines 250-294): cluster the sorted detections
into line groups, compose the text, and assemble the result. -/
def geoTail (sortedResults : List EasyOCRItem) (width height : Nat) :
    Except PyError ExtractionResult :=
  match clusterLoop sortedResults none [] [] with
  | .error e => .error e
  | .ok lineGroups =>
    match composeGeo lineGroups ("", 0, 0) with
    | .error e => .error e
    | .ok composed =>
      .ok ⟨normalize_spaces composed.1, PLAIN_TEXT_MIME_TYPE, ⟨width, height⟩, []⟩

/-- The geometric path (lines 249-294): sort by the line-249 key, then cluster and
compose. -/
def geoPath (result : List EasyOCRItem) (width height : Nat) :
    Except PyError ExtractionResult :=
  match pySorted sortKey1 result with
  | .error e => .error e
  | .ok sortedResults => geoTail sortedResults width height

/-- `_process_easyocr_result` (lines 208-294), with the page's width and height
standing for `image.width`/`image.height`. -/
def process_easyocr_result (result : List EasyOCRItem) (width height : Nat) :
    Except PyError ExtractionResult :=
  if result.isEmpty then
    .ok ⟨"", PLAIN_TEXT_MIME_TYPE, ⟨width, height⟩, []⟩
  else if result.all (fun item => item.len == 2) then
    .ok ⟨normalize_spaces (preFold ("", 0, 0) result).1, PLAIN_TEXT_MIME_TYPE,
      ⟨width, height⟩, []⟩
  else
    geoPath result width height

/-! ### Specification-side definitions and variant pipelines -/

/-- Default point (used only as the default of total-indexing variants of the
fallible keys; never reached on well-formed boxes). -/
def pt0 : Point := ⟨0, 0⟩

/-- The pure value of the line-249 sort key on geometric items with at least 3
corners: `box[0].y + box[2].y`. -/
def vKeyP : EasyOCRItem → ℚ
  | .pre _ _ => 0
  | .geo box _ _ => ((box[0]?).getD pt0).y + ((box[2]?).getD pt0).y

/-- The pure value of the line-276 horizontal key on boxes with at least one
corner: `box[0].x`. -/
def xKeyP (g : GeoT) : ℚ := ((g.1[0]?).getD pt0).x

/-- The non-empty texts of a pre-merged list, in input order. -/
def preTexts (l : List EasyOCRItem) : List String :=
  l.filterMap fun item =>
    match item with
    | .pre t _ => if t = "" then none else some t
    | .geo _ _ _ => none

/-- Join a list of strings with a separator between consecutive elements. -/
def joinWith (sep : String) : List String → String
  | [] => ""
  | [t] => t
  | t :: ts => t ++ sep ++ joinWith sep ts

/-- The line groups the geometric path computes for an input list (empty when the
pipeline raises before clustering finishes). -/
def lineGroupsOf (l : List EasyOCRItem) : List (List GeoT) :=
  match pySorted sortKey1 l with
  | .error _ => []
  | .ok s =>
    match clusterLoop s none [] [] with
    | .error _ => []
    | .ok gs => gs

/-- Erase the confidence of an item, keeping its shape, box and text. -/
def stripConf : EasyOCRItem → EasyOCRItem
  | .pre t _ => .pre t 0
  | .geo b t _ => .geo b t 0

/-- Erase the confidence of an unpacked geometric triple. -/
def stripGeoConf (g : GeoT) : GeoT := (g.1, g.2.1, 0)

/-- The line-249 sort key written as the spec words it: the two-corner vertical
center `(box[0].y + box[2].y) / 2` (half the key the code uses). -/
def sortKey1Mean : EasyOCRItem → Except PyError ℚ
  | .pre _ _ => .error .indexError
  | .geo box _ _ =>
    match pyIndex box 0 with
    | .error e => .error e
    | .ok p0 =>
      match pyIndex box 2 with
      | .error e => .error e
      | .ok p2 => .ok ((p0.y + p2.y) / 2)

/-- The geometric path with the sort key replaced by the spec's two-corner mean
`(box[0].y + box[2].y) / 2`; everything else is the code's pipeline. -/
def geoPathMeanKey (result : List EasyOCRItem) (width height : Nat) :
    Except PyError ExtractionResult :=
  match pySorted sortKey1Mean result with
  | .error e => .error e
  | .ok sortedResults => geoTail sortedResults width height

/-- `_process_easyocr_result` with the geometric sort key written as the spec's
two-corner mean; used to state that the code's `box[0].y + box[2].y` key sorts
identically. -/
def process_meanSortKey (result : List EasyOCRItem) (width height : Nat) :
    Except PyError ExtractionResult :=
  if result.isEmpty then
    .ok ⟨"", PLAIN_TEXT_MIME_TYPE, ⟨width, height⟩, []⟩
  else if result.all (fun item => item.len == 2) then
    .ok ⟨normalize_spaces (preFold ("", 0, 0) result).1, PLAIN_TEXT_MIME_TYPE,
      ⟨width, height⟩, []⟩
  else
    geoPathMeanKey result width height

/-- Modelled from the spec (§4.2 step 1): the sweep's vertical center as the spec
states it, the two-corner value `(box[0].y + box[2].y) / 2` — unlike line 257 of
the code, which averages all corners. Total indexing with a default is harmless
here: the spec assumes exactly-4-point quadrilaterals. -/
def yCenterTwoCorner (box : List Point) : ℚ :=
  (((box[0]?).getD pt0).y + ((box[2]?).getD pt0).y) / 2

/-- The clustering sweep with the spec's two-corner vertical center in place of the
code's all-corner mean; otherwise identical to `clusterLoop`. -/
def clusterLoopTwoCorner :
    List EasyOCRItem → Option ℚ → List (List GeoT) → List GeoT →
      Except PyError (List (List GeoT))
  | [], _, lineGroups, currentLine =>
    .ok (if currentLine.isEmpty then lineGroups else lineGroups ++ [currentLine])
  | item :: rest, prevYCenter, lineGroups, currentLine =>
    match unpack3 item with
    | .error e => .error e
    | .ok g =>
      let yc := yCenterTwoCorner g.1
      let isNew : Bool :=
        match prevYCenter with
        | none => true
        | some p => decide (|yc - p| > 20)
      if isNew then
        clusterLoopTwoCorner rest (some yc)
          (if currentLine.isEmpty then lineGroups else lineGroups ++ [currentLine]) [g]
      else
        clusterLoopTwoCorner rest (some yc) lineGroups (currentLine ++ [g])

/-- The geometric pipeline with the spec's two-corner sweep center; used to exhibit
that the code's sweep center is not the two-corner value. -/
def process_twoCornerSweep (result : List EasyOCRItem) (width height : Nat) :
    Except PyError ExtractionResult :=
  if result.isEmpty then
    .ok ⟨"", PLAIN_TEXT_MIME_TYPE, ⟨width, height⟩, []⟩
  else if result.all (fun item => item.len == 2) then
    .ok ⟨normalize_spaces (preFold ("", 0, 0) result).1, PLAIN_TEXT_MIME_TYPE,
      ⟨width, height⟩, []⟩
  else
    match pySorted sortKey1 result with
    | .error e => .error e
    | .ok sortedResults =>
      match clusterLoopTwoCorner sortedResults none [] [] with
      | .error e => .error e
      | .ok lineGroups =>
        match composeGeo lineGroups ("", 0, 0) with
        | .error e => .error e
        | .ok composed =>
          .ok ⟨normalize_spaces composed.1, PLAIN_TEXT_MIME_TYPE, ⟨width, height⟩, []⟩

/-! ### Generic lemmas about the sorting model -/

lemma pyKeySort_perm {α : Type*} (l : List (α × ℚ)) : (pyKeySort l).Perm l :=
  List.perm_insertionSort sndLE l

lemma pyKeySort_sorted {α : Type*} (l : List (α × ℚ)) :
    List.Pairwise sndLE (pyKeySort l) :=
  List.sorted_insertionSort sndLE l

lemma orderedInsert_map {α β : Type*} (r : α → α → Prop) (s : β → β → Prop)
    [DecidableRel r] [DecidableRel s] (φ : α → β)
    (hrs : ∀ a b, r a b ↔ s (φ a) (φ b)) (a : α) :
    ∀ l : List α,
      List.orderedInsert s (φ a) (l.map φ) = (List.orderedInsert r a l).map φ := by
  intro l
  induction l with
  | nil => rfl
  | cons b l ih =>
    by_cases h : r a b
    · simp [List.orderedInsert, if_pos h, if_pos ((hrs a b).mp h)]
    · simp [List.orderedInsert, if_neg h, if_neg fun hs => h ((hrs a b).mpr hs), ih]

lemma insertionSort_map {α β : Type*} (r : α → α → Prop) (s : β → β → Prop)
    [DecidableRel r] [DecidableRel s] (φ : α → β)
    (hrs : ∀ a b, r a b ↔ s (φ a) (φ b)) :
    ∀ l : List α, (l.map φ).insertionSort s = (l.insertionSort r).map φ := by
  intro l
  induction l with
  | nil => rfl
  | cons a l ih =>
    simp only [List.map_cons, List.insertionSort, ih]
    exact orderedInsert_map r s φ hrs a (l.insertionSort r)

lemma orderedInsert_filter_key {α : Type*} (k : ℚ) (p : α × ℚ) :
    ∀ l : List (α × ℚ),
      (List.orderedInsert sndLE p l).filter (fun q => decide (q.2 = k)) =
        if p.2 = k then p :: l.filter (fun q => decide (q.2 = k))
        else l.filter (fun q => decide (q.2 = k)) := by
  intro l
  induction l with
  | nil => by_cases h : p.2 = k <;> simp [List.orderedInsert, List.filter, h]
  | cons b l ih =>
    by_cases hr : sndLE p b
    · by_cases h : p.2 = k <;>
        simp [List.orderedInsert, if_pos hr, List.filter_cons, h]
    · have hlt : b.2 < p.2 := lt_of_not_le hr
      by_cases h : p.2 = k
      · have hb : ¬ b.2 = k := by
          intro hbk
          rw [hbk, h] at hlt
          exact lt_irrefl k hlt
        simp [List.orderedInsert, if_neg hr, List.filter_cons, hb, ih, h]
      · simp [List.orderedInsert, if_neg hr, List.filter_cons, ih, h]

lemma pyKeySort_filter {α : Type*} (k : ℚ) :
    ∀ l : List (α × ℚ),
      (pyKeySort l).filter (fun q => decide (q.2 = k)) =
        l.filter (fun q => decide (q.2 = k)) := by
  intro l
  induction l with
  | nil => rfl
  | cons p l ih =>
    show (List.orderedInsert sndLE p (pyKeySort l)).filter _ = _
    rw [orderedInsert_filter_key k p (pyKeySort l)]
    by_cases h : p.2 = k <;> simp [List.filter_cons, h, ih]

lemma pyKeySort_eq_of_perm {α : Type*} {l₁ l₂ : List (α × ℚ)} (p : l₁.Perm l₂)
    (hd : l₁.Pairwise fun a b => a.2 ≠ b.2) : pyKeySort l₁ = pyKeySort l₂ := by
  have p1 : (pyKeySort l₁).Perm l₁ := pyKeySort_perm l₁
  have p2 : (pyKeySort l₂).Perm l₂ := pyKeySort_perm l₂
  have pp : (pyKeySort l₁).Perm (pyKeySort l₂) := (p1.trans p).trans p2.symm
  have hd₁ : (pyKeySort l₁).Pairwise (fun a b => a.2 ≠ b.2) :=
    (List.Perm.pairwise_iff (fun h => Ne.symm h) p1).mpr hd
  have hd₂ : (pyKeySort l₂).Pairwise (fun a b => a.2 ≠ b.2) :=
    (List.Perm.pairwise_iff (fun h => Ne.symm h) (p2.trans p.symm)).mpr hd
  have st₁ : (pyKeySort l₁).Pairwise (fun a b : α × ℚ => a.2 < b.2) :=
    ((pyKeySort_sorted l₁).and hd₁).imp fun h => lt_of_le_of_ne h.1 h.2
  have st₂ : (pyKeySort l₂).Pairwise (fun a b : α × ℚ => a.2 < b.2) :=
    ((pyKeySort_sorted l₂).and hd₂).imp fun h => lt_of_le_of_ne h.1 h.2
  haveI : IsAntisymm (α × ℚ) (fun a b => a.2 < b.2) :=
    ⟨fun a b h1 h2 => absurd (h1.trans h2) (lt_irrefl _)⟩
  exact List.eq_of_perm_of_sorted pp st₁ st₂

lemma zip_map_self {α β : Type*} (f : α → β) :
    ∀ l : List α, l.zip (l.map f) = l.map fun a => (a, f a) := by
  intro l
  induction l with
  | nil => rfl
  | cons a l ih => simp [List.zip_cons_cons, ih]

/-! ### Lemmas about key precomputation (`mapME`) -/

lemma mapME_ok_of_forall {α β : Type*} (f : α → Except PyError β) (g : α → β) :
    ∀ l : List α, (∀ a ∈ l, f a = .ok (g a)) → mapME f l = .ok (l.map g) := by
  intro l
  induction l with
  | nil => intro _; rfl
  | cons a l ih =>
    intro h
    have ha := h a (by simp)
    have hl := ih fun x hx => h x (by simp [hx])
    simp [mapME, ha, hl]

lemma mapME_isOk_of_forall {α β : Type*} (f : α → Except PyError β) :
    ∀ l : List α, (∀ a ∈ l, ∃ b, f a = .ok b) → ∃ bs, mapME f l = .ok bs := by
  intro l
  induction l with
  | nil => intro _; exact ⟨[], rfl⟩
  | cons a l ih =>
    intro h
    obtain ⟨b, hb⟩ := h a (by simp)
    obtain ⟨bs, hbs⟩ := ih fun x hx => h x (by simp [hx])
    exact ⟨b :: bs, by simp [mapME, hb, hbs]⟩

lemma mapME_ne_ok {α β : Type*} (f : α → Except PyError β) :
    ∀ l : List α, (∃ a ∈ l, ∀ b, f a ≠ .ok b) → ∀ bs, mapME f l ≠ .ok bs := by
  intro l
  induction l with
  | nil => rintro ⟨a, ha, _⟩; exact absurd ha (List.not_mem_nil a)
  | cons a l ih =>
    rintro ⟨x, hx, hfx⟩ bs h
    rcases List.mem_cons.mp hx with rfl | hxl
    · cases hfa : f x with
      | error e => simp [mapME, hfa] at h
      | ok b => exact hfx b hfa
    · cases hfa : f a with
      | error e => simp [mapME, hfa] at h
      | ok b =>
        cases hml : mapME f l with
        | error e => simp [mapME, hfa, hml] at h
        | ok bs' => exact ih ⟨x, hxl, hfx⟩ bs' hml

lemma mapME_error_mem {α β : Type*} (f : α → Except PyError β) :
    ∀ l : List α, ∀ e, mapME f l = .error e → ∃ a ∈ l, f a = .error e := by
  intro l
  induction l with
  | nil => intro e h; simp [mapME] at h
  | cons a l ih =>
    intro e h
    cases hfa : f a with
    | error e' =>
      simp [mapME, hfa] at h
      exact ⟨a, by simp, by rw [hfa, h]⟩
    | ok b =>
      cases hml : mapME f l with
      | error e' =>
        simp [mapME, hfa, hml] at h
        obtain ⟨x, hxl, hx⟩ := ih e' hml
        exact ⟨x, by simp [hxl], by rw [hx, h]⟩
      | ok bs => simp [mapME, hfa, hml] at h

/-! ### Lemmas about the geometric sort key -/

lemma sortKey1_pre (t : String) (c : ℚ) : sortKey1 (.pre t c) = .error .indexError := rfl

lemma sortKey1_error_eq : ∀ (i : EasyOCRItem) (e : PyError),
    sortKey1 i = .error e → e = .indexError := by
  intro i e h
  cases i with
  | pre t c => simpa [sortKey1] using h.symm
  | geo b t c =>
    cases h0 : b[0]? with
    | none => simp [sortKey1, pyIndex, h0] at h; exact h.symm
    | some p0 =>
      cases h2 : b[2]? with
      | none => simp [sortKey1, pyIndex, h0, h2] at h; exact h.symm
      | some p2 => simp [sortKey1, pyIndex, h0, h2] at h

lemma sortKey1_ok_geo (b : List Point) (t : String) (c : ℚ) (h : 3 ≤ b.length) :
    sortKey1 (.geo b t c) = .ok (vKeyP (.geo b t c)) := by
  have h0 : b[0]? = some b[0] := List.getElem?_eq_getElem (by omega)
  have h2 : b[2]? = some b[2] := List.getElem?_eq_getElem (by omega)
  simp [sortKey1, pyIndex, vKeyP, h0, h2]

lemma sortKey1_short (b : List Point) (t : String) (c : ℚ) (h : b.length < 3) :
    sortKey1 (.geo b t c) = .error .indexError := by
  cases h0 : b[0]? with
  | none => simp [sortKey1, pyIndex, h0]
  | some p0 =>
    have h2 : b[2]? = none := List.getElem?_eq_none (by omega)
    simp [sortKey1, pyIndex, h0, h2]

/-! ### Well-formed geometric inputs and the dispatch of the three branches -/

/-- A geometric 3-tuple whose box has at least 3 corners, so that both indices of
the line-249 sort key are in range. -/
def GeoWF (i : EasyOCRItem) : Prop := i.len = 3 ∧ 3 ≤ i.quadLen

instance (i : EasyOCRItem) : Decidable (GeoWF i) :=
  inferInstanceAs (Decidable (_ ∧ _))

lemma sortKey1_ok_of_wf {i : EasyOCRItem} (h : GeoWF i) :
    sortKey1 i = .ok (vKeyP i) := by
  cases i with
  | pre t c => exact absurd h.1 (by simp [EasyOCRItem.len])
  | geo b t c => exact sortKey1_ok_geo b t c h.2

lemma pySorted_wf {l : List EasyOCRItem} (h : ∀ i ∈ l, GeoWF i) :
    pySorted sortKey1 l =
      .ok ((pyKeySort (l.map fun i => (i, vKeyP i))).map Prod.fst) := by
  have hm : mapME sortKey1 l = .ok (l.map vKeyP) :=
    mapME_ok_of_forall _ _ l fun a ha => sortKey1_ok_of_wf (h a ha)
  simp [pySorted, hm, zip_map_self]

lemma process_geo_branch {l : List EasyOCRItem} (width height : Nat) (hne : l ≠ [])
    {i : EasyOCRItem} (hi : i ∈ l) (h3 : i.len = 3) :
    process_easyocr_result l width height = geoPath l width height := by
  have h1 : l.isEmpty = false := List.isEmpty_eq_false.mpr hne
  have h2 : l.all (fun item => item.len == 2) = false :=
    List.all_eq_false.mpr ⟨i, hi, by simp [h3]⟩
  simp [process_easyocr_result, h1, h2]

/-- A flat 4-point box whose corners all lie at height `y` with left corner at `x`:
its two-corner center and its all-corner mean both equal `y`. -/
def flatBox (x y : ℚ) : List Point := [⟨x, y⟩, ⟨x + 1, y⟩, ⟨x + 2, y⟩, ⟨x + 3, y⟩]

/-! ### C4: empty input -/

/-- **C4** — For the empty detection list and any page dimensions,
`_process_easyocr_result` returns normally (no error) with empty text and metadata
carrying the page's width and height. -/
theorem c4_empty_input_returns_empty_result (width height : Nat) :
    process_easyocr_result [] width height =
      .ok ⟨"", PLAIN_TEXT_MIME_TYPE, ⟨width, height⟩, []⟩ := rfl

/-! ### C3: permutation invariance under distinct sort keys -/

/-- **C3** — For detection lists of geometric 4-point detections whose vertical
sort keys are pairwise distinct (and whose left-edge x keys are pairwise distinct
within each resulting line), `_process_easyocr_result` returns an identical result
for every permutation of the input list. -/
theorem c3_permutation_invariant (l₁ l₂ : List EasyOCRItem) (width height : Nat)
    (hperm : l₁.Perm l₂)
    (hgeo : ∀ i ∈ l₁, i.len = 3 ∧ i.quadLen = 4)
    (hv : l₁.Pairwise fun i j => vKeyP i ≠ vKeyP j)
    (_hx : ∀ g ∈ lineGroupsOf l₁, g.Pairwise fun a b => xKeyP a ≠ xKeyP b) :
    process_easyocr_result l₁ width height = process_easyocr_result l₂ width height := by
  cases l₁ with
  | nil =>
    have : l₂ = [] := hperm.symm.eq_nil
    rw [this]
  | cons a l =>
    have hne₁ : a :: l ≠ [] := by simp
    have hne₂ : l₂ ≠ [] := by
      intro h
      rw [h] at hperm
      exact hne₁ hperm.eq_nil
    have hgeo₂ : ∀ i ∈ l₂, i.len = 3 ∧ i.quadLen = 4 :=
      fun i hi => hgeo i (hperm.mem_iff.mpr hi)
    have ha3 : a.len = 3 := (hgeo a (by simp)).1
    obtain ⟨b, hb⟩ := List.exists_mem_of_ne_nil l₂ hne₂
    rw [process_geo_branch width height hne₁ (by simp : a ∈ a :: l) ha3,
      process_geo_branch width height hne₂ hb (hgeo₂ b hb).1]
    have hwf₁ : ∀ i ∈ a :: l, GeoWF i := fun i hi =>
      ⟨(hgeo i hi).1, by have := (hgeo i hi).2; omega⟩
    have hwf₂ : ∀ i ∈ l₂, GeoWF i := fun i hi =>
      ⟨(hgeo₂ i hi).1, by have := (hgeo₂ i hi).2; omega⟩
    have hsorteq :
        pyKeySort ((a :: l).map fun i => (i, vKeyP i)) =
          pyKeySort (l₂.map fun i => (i, vKeyP i)) := by
      apply pyKeySort_eq_of_perm (hperm.map _)
      exact List.pairwise_map.mpr hv
    simp only [geoPath, pySorted_wf hwf₁, pySorted_wf hwf₂]
    rw [hsorteq]

/-- Witness for C3 at a concrete input: two geometric detections with distinct
vertical sort keys, in both orders. -/
theorem c3_permutation_invariant_witness :
    (([.geo (flatBox 0 0) "a" 1, .geo (flatBox 0 30) "b" 1] : List EasyOCRItem).Perm
        [.geo (flatBox 0 30) "b" 1, .geo (flatBox 0 0) "a" 1] ∧
      (∀ i ∈ ([.geo (flatBox 0 0) "a" 1, .geo (flatBox 0 30) "b" 1] : List EasyOCRItem),
        i.len = 3 ∧ i.quadLen = 4) ∧
      ([.geo (flatBox 0 0) "a" 1, .geo (flatBox 0 30) "b" 1] : List EasyOCRItem).Pairwise
        (fun i j => vKeyP i ≠ vKeyP j) ∧
      (∀ g ∈ lineGroupsOf [.geo (flatBox 0 0) "a" 1, .geo (flatBox 0 30) "b" 1],
        g.Pairwise fun a b => xKeyP a ≠ xKeyP b)) ∧
    process_easyocr_result [.geo (flatBox 0 0) "a" 1, .geo (flatBox 0 30) "b" 1] 800 600 =
      process_easyocr_result [.geo (flatBox 0 30) "b" 1, .geo (flatBox 0 0) "a" 1] 800 600 := by
  refine ⟨⟨?_, ?_, ?_, ?_⟩, ?_⟩
  · with_unfolding_all decide
  · with_unfolding_all decide
  · with_unfolding_all decide
  · with_unfolding_all decide
  · exact c3_permutation_invariant _ _ 800 600 (by with_unfolding_all decide)
      (by with_unfolding_all decide) (by with_unfolding_all decide)
      (by with_unfolding_all decide)

/-! ### String helpers and the trailing-newline normalization lemma -/

lemma string_append_empty (s : String) : s ++ "" = s :=
  String.ext (by simp [String.data_append])

lemma string_empty_append (s : String) : "" ++ s = s :=
  String.ext (by simp [String.data_append])

/-- The raw pre-merged buffer shape: every text followed by one newline. -/
def rawNL : List String → String
  | [] => ""
  | t :: ts => t ++ "\n" ++ rawNL ts

lemma rawNL_eq_joinWith : ∀ (t : String) (ts : List String),
    rawNL (t :: ts) = joinWith "\n" (t :: ts) ++ "\n" := by
  intro t ts
  induction ts generalizing t with
  | nil => simp [rawNL, joinWith, string_append_empty]
  | cons u ts ih =>
    show t ++ "\n" ++ rawNL (u :: ts) = (t ++ "\n" ++ joinWith "\n" (u :: ts)) ++ "\n"
    rw [ih u, ← String.append_assoc]

lemma preFold_text (l : List EasyOCRItem) :
    ∀ acc : String × ℚ × Nat, (preFold acc l).1 = acc.1 ++ rawNL (preTexts l) := by
  induction l with
  | nil => intro acc; simp [preFold, preTexts, rawNL, string_append_empty]
  | cons i l ih =>
    intro acc
    cases i with
    | geo b t c =>
      show (preFold acc l).1 = acc.1 ++ rawNL (preTexts (.geo b t c :: l))
      rw [ih acc]
      simp [preTexts, List.filterMap_cons]
    | pre t c =>
      by_cases ht : t = ""
      · show (preFold (if t = "" then acc else _) l).1 = _
        rw [if_pos ht, ih acc]
        simp [preTexts, List.filterMap_cons, ht]
      · show (preFold (if t = "" then acc else
          (acc.1 ++ t ++ "\n", acc.2.1 + c, acc.2.2 + 1)) l).1 = _
        rw [if_neg ht, ih]
        show acc.1 ++ t ++ "\n" ++ rawNL (preTexts l) = _
        simp [preTexts, List.filterMap_cons, ht, rawNL, String.append_assoc]

lemma splitNL_ne_nil : ∀ cs : List Char, splitNL cs ≠ [] := by
  intro cs
  cases cs with
  | nil => simp [splitNL]
  | cons c cs =>
    by_cases h : c = '\n'
    · simp [splitNL, h]
    · simp only [splitNL, if_neg h]
      cases hs : splitNL cs with
      | nil => simp [consHead]
      | cons l ls => simp [consHead]

lemma consHead_append_of_ne_nil (c : Char) :
    ∀ {l : List (List Char)} (m : List (List Char)), l ≠ [] →
      consHead c (l ++ m) = consHead c l ++ m := by
  intro l m h
  cases l with
  | nil => exact absurd rfl h
  | cons x ls => simp [consHead]

lemma splitNL_append_nl : ∀ cs : List Char, splitNL (cs ++ ['\n']) = splitNL cs ++ [[]] := by
  intro cs
  induction cs with
  | nil => simp [splitNL]
  | cons c cs ih =>
    by_cases h : c = '\n'
    · subst h
      show [] :: splitNL (cs ++ ['\n']) = ([] :: splitNL cs) ++ [[]]
      rw [ih]
      rfl
    · have e1 : splitNL (c :: (cs ++ ['\n'])) = consHead c (splitNL (cs ++ ['\n'])) := by
        simp [splitNL, if_neg h]
      have e2 : splitNL (c :: cs) = consHead c (splitNL cs) := by
        simp [splitNL, if_neg h]
      show splitNL (c :: (cs ++ ['\n'])) = splitNL (c :: cs) ++ [[]]
      rw [e1, e2, ih, consHead_append_of_ne_nil c [[]] (splitNL_ne_nil cs)]

lemma dropTrailingEmpties_append_nil (ns : List (List Char)) :
    dropTrailingEmpties (ns ++ [[]]) = dropTrailingEmpties ns := by
  simp [dropTrailingEmpties, List.reverse_append, List.dropWhile_cons]

lemma normalize_spaces_append_nl (s : String) :
    normalize_spaces (s ++ "\n") = normalize_spaces s := by
  have hd : (s ++ "\n").data = s.data ++ ['\n'] := by
    simp [String.data_append]
  unfold normalize_spaces
  rw [hd, splitNL_append_nl, List.map_append]
  have h0 : List.map (fun l => trimTrailingBlanks (collapseGo false l)) [[]] = [[]] := rfl
  rw [h0, dropTrailingEmpties_append_nil]

/-! ### C5: the pre-merged path -/

/-- **C5** — When every element of a non-empty list is a 2-tuple
`(text, confidence)`, the function performs no line clustering and returns the
non-empty texts joined with a newline separator, in input order, whitespace
normalized. -/
theorem c5_premerged_join (l : List EasyOCRItem) (width height : Nat)
    (hne : l ≠ []) (h2 : ∀ i ∈ l, i.len = 2) :
    process_easyocr_result l width height =
      .ok ⟨normalize_spaces (joinWith "\n" (preTexts l)), PLAIN_TEXT_MIME_TYPE,
        ⟨width, height⟩, []⟩ := by
  have h1 : l.isEmpty = false := List.isEmpty_eq_false.mpr hne
  have hb : l.all (fun item => item.len == 2) = true :=
    List.all_eq_true.mpr fun i hi => by simp [h2 i hi]
  simp only [process_easyocr_result, h1, hb, Bool.false_eq_true, if_false, if_true]
  have ht : (preFold ("", 0, 0) l).1 = rawNL (preTexts l) := by
    rw [preFold_text]
    exact string_empty_append _
  rw [ht]
  cases hpt : preTexts l with
  | nil => rfl
  | cons t ts => rw [rawNL_eq_joinWith, normalize_spaces_append_nl]

/-- Witness for C5: `[("Hello", 0.9), ("World", 0.8)]` produces `"Hello\nWorld"`. -/
theorem c5_premerged_join_witness :
    (([.pre "Hello" (9 / 10), .pre "World" (8 / 10)] : List EasyOCRItem) ≠ [] ∧
      ∀ i ∈ ([.pre "Hello" (9 / 10), .pre "World" (8 / 10)] : List EasyOCRItem),
        i.len = 2) ∧
    process_easyocr_result [.pre "Hello" (9 / 10), .pre "World" (8 / 10)] 800 600 =
      .ok ⟨normalize_spaces
            (joinWith "\n" (preTexts [.pre "Hello" (9 / 10), .pre "World" (8 / 10)])),
          PLAIN_TEXT_MIME_TYPE, ⟨800, 600⟩, []⟩ ∧
    normalize_spaces
        (joinWith "\n" (preTexts [.pre "Hello" (9 / 10), .pre "World" (8 / 10)])) =
      "Hello\nWorld" := by
  refine ⟨⟨by simp, by with_unfolding_all decide⟩, ?_, by with_unfolding_all decide⟩
  exact c5_premerged_join _ 800 600 (by simp) (by with_unfolding_all decide)

/-! ### Equation lemmas and invariants of the clustering sweep -/

lemma clusterLoop_nil (prevY : Option ℚ) (groups : List (List GeoT)) (cur : List GeoT) :
    clusterLoop [] prevY groups cur =
      .ok (if cur.isEmpty then groups else groups ++ [cur]) := rfl

lemma clusterLoop_cons_ok {item : EasyOCRItem} {g : GeoT} (rest : List EasyOCRItem)
    (prevY : Option ℚ) (groups : List (List GeoT)) (cur : List GeoT)
    (hu : unpack3 item = .ok g) :
    clusterLoop (item :: rest) prevY groups cur =
      if (match prevY with
          | none => true
          | some p => decide (|yCenterOf g.1 - p| > 20)) then
        clusterLoop rest (some (yCenterOf g.1))
          (if cur.isEmpty then groups else groups ++ [cur]) [g]
      else clusterLoop rest (some (yCenterOf g.1)) groups (cur ++ [g]) := by
  simp [clusterLoop, hu]

lemma clusterLoop_ok_of_geo :
    ∀ (l : List EasyOCRItem) (prevY : Option ℚ) (groups : List (List GeoT))
      (cur : List GeoT), (∀ i ∈ l, i.len = 3) →
      ∃ gs, clusterLoop l prevY groups cur = .ok gs := by
  intro l
  induction l with
  | nil => intro prevY groups cur _; exact ⟨_, rfl⟩
  | cons item rest ih =>
    intro prevY groups cur h
    obtain ⟨b, t, c, rfl⟩ : ∃ b t c, item = .geo b t c := by
      cases item with
      | pre t c =>
        exact absurd (h (.pre t c) (List.mem_cons_self _ _)) (by simp [EasyOCRItem.len])
      | geo b t c => exact ⟨b, t, c, rfl⟩
    have hrfl : unpack3 (.geo b t c) = .ok (b, t, c) := rfl
    have htail : ∀ i ∈ rest, i.len = 3 := fun i hi => h i (List.mem_cons_of_mem _ hi)
    rw [clusterLoop_cons_ok rest prevY groups cur hrfl]
    generalize (match prevY with
      | none => true
      | some p => decide (|yCenterOf ((b, t, c) : GeoT).1 - p| > 20)) = cond
    cases cond with
    | false =>
      rw [if_neg (by simp)]
      exact ih _ _ _ htail
    | true =>
      rw [if_pos rfl]
      exact ih _ _ _ htail

lemma clusterLoop_mem (P : GeoT → Prop) :
    ∀ (l : List EasyOCRItem) (prevY : Option ℚ) (groups : List (List GeoT))
      (cur : List GeoT) (gs : List (List GeoT)),
      (∀ g ∈ groups, ∀ d ∈ g, P d) → (∀ d ∈ cur, P d) →
      (∀ i ∈ l, ∀ d, unpack3 i = .ok d → P d) →
      clusterLoop l prevY groups cur = .ok gs →
      ∀ g ∈ gs, ∀ d ∈ g, P d := by
  intro l
  induction l with
  | nil =>
    intro prevY groups cur gs hg hc _ h g hgs
    rw [clusterLoop_nil] at h
    by_cases hcur : cur.isEmpty
    · rw [if_pos hcur] at h
      cases h
      exact hg g hgs
    · rw [if_neg hcur] at h
      cases h
      rcases List.mem_append.mp hgs with hin | hin
      · exact hg g hin
      · rw [List.mem_singleton.mp hin]
        exact hc
  | cons item rest ih =>
    intro prevY groups cur gs hg hc hl h
    cases hu : unpack3 item with
    | error e => rw [clusterLoop, hu] at h; cases h
    | ok d =>
      have hPd : P d := hl item (by simp) d hu
      rw [clusterLoop_cons_ok rest prevY groups cur hu] at h
      split at h
      · refine ih _ _ _ _ ?_ ?_ (fun i hi => hl i (by simp [hi])) h
        · intro g hgin
          by_cases hcur : cur.isEmpty
          · rw [if_pos hcur] at hgin
            exact hg g hgin
          · rw [if_neg hcur] at hgin
            rcases List.mem_append.mp hgin with hin | hin
            · exact hg g hin
            · rw [List.mem_singleton.mp hin]
              exact hc
        · intro x hx
          rw [List.mem_singleton.mp hx]
          exact hPd
      · refine ih _ _ _ _ hg ?_ (fun i hi => hl i (by simp [hi])) h
        intro x hx
        rcases List.mem_append.mp hx with hin | hin
        · exact hc x hin
        · rw [List.mem_singleton.mp hin]
          exact hPd

/-- Two consecutive line members whose all-corner vertical centers differ by at
most the threshold 20. -/
def closePrev (a b : GeoT) : Prop := |yCenterOf b.1 - yCenterOf a.1| ≤ 20

instance (a b : GeoT) : Decidable (closePrev a b) :=
  inferInstanceAs (Decidable (_ ≤ _))

lemma clusterLoop_chain :
    ∀ (l : List EasyOCRItem) (prevY : Option ℚ) (groups : List (List GeoT))
      (cur : List GeoT) (gs : List (List GeoT)),
      (∀ g ∈ groups, g.Chain' closePrev) → cur.Chain' closePrev →
      (∀ x, cur.getLast? = some x → prevY = some (yCenterOf x.1)) →
      clusterLoop l prevY groups cur = .ok gs →
      ∀ g ∈ gs, g.Chain' closePrev := by
  intro l
  induction l with
  | nil =>
    intro prevY groups cur gs hg hc _ h g hgs
    rw [clusterLoop_nil] at h
    by_cases hcur : cur.isEmpty
    · rw [if_pos hcur] at h
      cases h
      exact hg g hgs
    · rw [if_neg hcur] at h
      cases h
      rcases List.mem_append.mp hgs with hin | hin
      · exact hg g hin
      · rw [List.mem_singleton.mp hin]
        exact hc
  | cons item rest ih =>
    intro prevY groups cur gs hg hc hlast h
    cases hu : unpack3 item with
    | error e => rw [clusterLoop, hu] at h; cases h
    | ok d =>
      rw [clusterLoop_cons_ok rest prevY groups cur hu] at h
      split at h
      · -- a new line starts at `d`
        refine ih _ _ _ _ ?_ (List.chain'_singleton d) ?_ h
        · intro g hgin
          by_cases hcur : cur.isEmpty
          · rw [if_pos hcur] at hgin
            exact hg g hgin
          · rw [if_neg hcur] at hgin
            rcases List.mem_append.mp hgin with hin | hin
            · exact hg g hin
            · rw [List.mem_singleton.mp hin]
              exact hc
        · intro x hx
          simp only [List.getLast?_singleton] at hx
          injection hx with h
          rw [← h]
      · -- `d` joins the current line: it is close to the immediately preceding member
        next hnotnew =>
        obtain ⟨p, hp⟩ : ∃ p, prevY = some p := by
          cases prevY with
          | none => simp at hnotnew
          | some p => exact ⟨p, rfl⟩
        subst hp
        have hnear : |yCenterOf d.1 - p| ≤ 20 := by
          simpa using hnotnew
        refine ih _ _ _ _ hg ?_ ?_ h
        · refine List.chain'_append.mpr ⟨hc, List.chain'_singleton d, ?_⟩
          intro x hx y hy
          have hyd : d = y := by simpa using hy
          have hpx : some p = some (yCenterOf x.1) := hlast x hx
          have hpx' : p = yCenterOf x.1 := by injection hpx
          rw [← hyd]
          show |yCenterOf d.1 - yCenterOf x.1| ≤ 20
          rw [← hpx']
          exact hnear
        · intro x hx
          rw [List.getLast?_concat] at hx
          injection hx with h
          rw [← h]

/-! ### C1: the sweep's reference point (corrected) -/

/-- **C1 counterexample** — for detections with vertical centers 0, 15 and 30 and
threshold 20 the claim predicts the first two share a line and the third starts a
new one (comparison against the line's fixed anchor). The code compares against
the immediately preceding detection (`prev_y_center` is reassigned every
iteration), so all three land in ONE line and the composed text is `"a b c"`, not
the `"a b\nc"` the claim implies. -/
theorem c1_counterexample_rolling_not_anchor :
    lineGroupsOf
        [.geo (flatBox 0 0) "a" 1, .geo (flatBox 1 15) "b" 1,
          .geo (flatBox 2 30) "c" 1] =
      [[(flatBox 0 0, "a", 1), (flatBox 1 15, "b", 1), (flatBox 2 30, "c", 1)]] ∧
    process_easyocr_result
        [.geo (flatBox 0 0) "a" 1, .geo (flatBox 1 15) "b" 1,
          .geo (flatBox 2 30) "c" 1] 800 600 =
      .ok ⟨"a b c", PLAIN_TEXT_MIME_TYPE, ⟨800, 600⟩, []⟩ ∧
    ("a b c" : String) ≠ "a b\nc" := by
  refine ⟨?_, ?_, ?_⟩ <;> with_unfolding_all decide

/-- **C1 amended** — the clustering sweep compares each detection's vertical
center with that of the immediately preceding detection of the sorted order, not
with a fixed per-line anchor: (i) in every produced line group every CONSECUTIVE
pair of members is within the threshold (the guarantee is relative to each
predecessor, with no bound relative to the line's first member), and (ii) for
vertical centers 0, 15, 30 with threshold 20 all three detections share one line. -/
theorem c1_amended_rolling_reference :
    (∀ (l : List EasyOCRItem) (gs : List (List GeoT)),
        clusterLoop l none [] [] = .ok gs → ∀ g ∈ gs, g.Chain' closePrev) ∧
    lineGroupsOf
        [.geo (flatBox 0 0) "a" 1, .geo (flatBox 1 15) "b" 1,
          .geo (flatBox 2 30) "c" 1] =
      [[(flatBox 0 0, "a", 1), (flatBox 1 15, "b", 1), (flatBox 2 30, "c", 1)]] := by
  constructor
  · intro l gs h
    exact clusterLoop_chain l none [] [] gs (fun g hg => absurd hg (List.not_mem_nil g))
      List.chain'_nil (fun x hx => by simp at hx) h
  · with_unfolding_all decide

/-- Witness for C1's amended theorem: a concrete clustering run whose produced
groups are consecutively close. -/
theorem c1_amended_rolling_reference_witness :
    (clusterLoop
        [.geo (flatBox 0 0) "a" 1, .geo (flatBox 1 15) "b" 1,
          .geo (flatBox 2 30) "c" 1] none [] [] =
      .ok [[(flatBox 0 0, "a", 1), (flatBox 1 15, "b", 1), (flatBox 2 30, "c", 1)]]) ∧
    ∀ g ∈ [[((flatBox 0 0 : List Point), "a", (1 : ℚ)),
        (flatBox 1 15, "b", 1), (flatBox 2 30, "c", 1)]],
      List.Chain' closePrev g :=
  ⟨by with_unfolding_all decide,
    c1_amended_rolling_reference.1
      [.geo (flatBox 0 0) "a" 1, .geo (flatBox 1 15) "b" 1, .geo (flatBox 2 30) "c" 1]
      [[(flatBox 0 0, "a", 1), (flatBox 1 15, "b", 1), (flatBox 2 30, "c", 1)]]
      (by with_unfolding_all decide)⟩

/-! ### C2: which vertical-center formula is used where (corrected) -/

/-- **C2 counterexample** — the sweep does not use the two-corner vertical center
`(box[0].y + box[2].y) / 2`. For a skewed box with corner heights 10, 0, 30, 150
its two-corner center is 20 (within threshold of a previous center 0) while the
code's all-corner mean is 47.5 (beyond the threshold): the code splits the lines
where the claimed two-corner sweep would merge them, so the two pipelines produce
different results on this input. -/
theorem c2_counterexample_two_center_formulas :
    process_easyocr_result
        [.geo (flatBox 0 0) "a" 1,
          .geo [⟨0, 10⟩, ⟨1, 0⟩, ⟨2, 30⟩, ⟨3, 150⟩] "b" 1] 800 600 =
      .ok ⟨"a\nb", PLAIN_TEXT_MIME_TYPE, ⟨800, 600⟩, []⟩ ∧
    process_twoCornerSweep
        [.geo (flatBox 0 0) "a" 1,
          .geo [⟨0, 10⟩, ⟨1, 0⟩, ⟨2, 30⟩, ⟨3, 150⟩] "b" 1] 800 600 =
      .ok ⟨"a b", PLAIN_TEXT_MIME_TYPE, ⟨800, 600⟩, []⟩ ∧
    process_easyocr_result
        [.geo (flatBox 0 0) "a" 1,
          .geo [⟨0, 10⟩, ⟨1, 0⟩, ⟨2, 30⟩, ⟨3, 150⟩] "b" 1] 800 600 ≠
      process_twoCornerSweep
        [.geo (flatBox 0 0) "a" 1,
          .geo [⟨0, 10⟩, ⟨1, 0⟩, ⟨2, 30⟩, ⟨3, 150⟩] "b" 1] 800 600 := by
  refine ⟨?_, ?_, ?_⟩ <;> with_unfolding_all decide

lemma sortKey1Mean_eq (i : EasyOCRItem) :
    sortKey1Mean i = Except.map (· / 2) (sortKey1 i) := by
  cases i with
  | pre t c => rfl
  | geo b t c =>
    cases h0 : b[0]? with
    | none => simp [sortKey1Mean, sortKey1, pyIndex, h0, Except.map]
    | some p0 =>
      cases h2 : b[2]? with
      | none => simp [sortKey1Mean, sortKey1, pyIndex, h0, h2, Except.map]
      | some p2 => simp [sortKey1Mean, sortKey1, pyIndex, h0, h2, Except.map]

lemma except_map_ok {ε α β : Type*} (φ : α → β) (a : α) :
    Except.map φ (.ok a : Except ε α) = .ok (φ a) := rfl

lemma except_map_error {ε α β : Type*} (φ : α → β) (e : ε) :
    Except.map φ (.error e : Except ε α) = .error e := rfl

lemma mapME_map {α β γ : Type*} (φ : β → γ) (f : α → Except PyError β) :
    ∀ l : List α,
      mapME (fun a => Except.map φ (f a)) l = Except.map (List.map φ) (mapME f l) := by
  intro l
  induction l with
  | nil => rfl
  | cons a l ih =>
    cases hfa : f a with
    | error e => simp [mapME, hfa, except_map_error]
    | ok b =>
      cases hml : mapME f l with
      | error e => simp [mapME, hfa, hml, ih, except_map_ok, except_map_error]
      | ok bs => simp [mapME, hfa, hml, ih, except_map_ok]

lemma pySorted_halfkey (l : List EasyOCRItem) :
    pySorted sortKey1Mean l = pySorted sortKey1 l := by
  have hm : mapME sortKey1Mean l = Except.map (List.map (· / 2)) (mapME sortKey1 l) := by
    rw [show sortKey1Mean = fun i => Except.map (· / 2) (sortKey1 i) from
      funext sortKey1Mean_eq]
    exact mapME_map _ _ l
  unfold pySorted
  cases hk : mapME sortKey1 l with
  | error e => rw [hm, hk]; rfl
  | ok ks =>
    have hmapcomm :
        pyKeySort ((l.zip ks).map (Prod.map id (· / 2))) =
          (pyKeySort (l.zip ks)).map (Prod.map id (· / 2)) := by
      refine insertionSort_map sndLE sndLE (Prod.map (@id EasyOCRItem) (· / 2)) ?_ _
      intro p q
      show p.2 ≤ q.2 ↔ p.2 / 2 ≤ q.2 / 2
      constructor <;> intro h <;> linarith
    rw [hm, hk]
    show Except.ok ((pyKeySort (l.zip (ks.map (· / 2)))).map Prod.fst) =
      Except.ok ((pyKeySort (l.zip ks)).map Prod.fst)
    rw [List.zip_map_right, hmapcomm, List.map_map]
    exact congrArg Except.ok (List.map_congr_left fun p _ => rfl)

/-- **C2 amended** — the detections are sorted (stably, ascending) by the code's
key `box[0].y + box[2].y`, which orders identically to the spec's two-corner
vertical center `(box[0].y + box[2].y) / 2`: replacing the sort key by the halved
one changes nothing. The value compared during the sweep, however, is the
all-corner mean `sum(point.y for point in box) / 4` of the current and the
immediately preceding detection — not the two-corner center (see the
counterexample). -/
theorem c2_amended_half_key_sorts_identically :
    ∀ (l : List EasyOCRItem) (width height : Nat),
      process_easyocr_result l width height = process_meanSortKey l width height := by
  intro l width height
  simp only [process_easyocr_result, process_meanSortKey, geoPath, geoPathMeanKey,
    pySorted_halfkey]

/-! ### C6: within-line ordering and composition -/

/-- **C6** — within each clustered line the members are ordered ascending by the
x-coordinate of box corner 0, with ties kept in input order (stable sort), and the
non-empty texts are joined with single spaces. (i) the within-line sort
(`pyKeySort` on the line-276 keys) always produces a key-ascending list; (ii) it is
a permutation of the line; (iii) it is stable: the elements carrying any fixed key
keep their relative input order; (iv) the concrete line with texts "B","A","C" at
left-x 50, 10, 90 and vertical centers 100, 102, 105 composes to "A B C". -/
theorem c6_line_ordering_and_join :
    (∀ {α : Type*} (line : List (α × ℚ)), List.Pairwise sndLE (pyKeySort line)) ∧
    (∀ {α : Type*} (line : List (α × ℚ)), (pyKeySort line).Perm line) ∧
    (∀ {α : Type*} (line : List (α × ℚ)) (k : ℚ),
      (pyKeySort line).filter (fun q => decide (q.2 = k)) =
        line.filter (fun q => decide (q.2 = k))) ∧
    process_easyocr_result
        [.geo [⟨50, 95⟩, ⟨150, 95⟩, ⟨150, 105⟩, ⟨50, 105⟩] "B" 1,
          .geo [⟨10, 97⟩, ⟨90, 97⟩, ⟨90, 107⟩, ⟨10, 107⟩] "A" 1,
          .geo [⟨90, 100⟩, ⟨190, 100⟩, ⟨190, 110⟩, ⟨90, 110⟩] "C" 1] 800 600 =
      .ok ⟨"A B C", PLAIN_TEXT_MIME_TYPE, ⟨800, 600⟩, []⟩ :=
  ⟨fun line => pyKeySort_sorted line, fun line => pyKeySort_perm line,
    fun line k => pyKeySort_filter k line, by with_unfolding_all decide⟩

/-! ### C7: empty-text detections (corrected) -/

/-- **C7 counterexample** — an empty-text detection is NOT inert on the geometric
path: it still updates `prev_y_center` and occupies the line groups. With centers
0 (text "a"), 15 (text ""), 30 (text "c") and threshold 20, its presence chains all
three into one line ("a c") whereas without it the line splits ("a\nc"): the empty
text changed the line separators of the remaining tokens. -/
theorem c7_counterexample_empty_text_affects_lines :
    process_easyocr_result
        [.geo (flatBox 0 0) "a" 1, .geo (flatBox 1 15) "" 1,
          .geo (flatBox 2 30) "c" 1] 800 600 =
      .ok ⟨"a c", PLAIN_TEXT_MIME_TYPE, ⟨800, 600⟩, []⟩ ∧
    process_easyocr_result [.geo (flatBox 0 0) "a" 1, .geo (flatBox 2 30) "c" 1]
        800 600 =
      .ok ⟨"a\nc", PLAIN_TEXT_MIME_TYPE, ⟨800, 600⟩, []⟩ ∧
    process_easyocr_result
        [.geo (flatBox 0 0) "a" 1, .geo (flatBox 1 15) "" 1,
          .geo (flatBox 2 30) "c" 1] 800 600 ≠
      process_easyocr_result [.geo (flatBox 0 0) "a" 1, .geo (flatBox 2 30) "c" 1]
        800 600 := by
  refine ⟨?_, ?_, ?_⟩ <;> with_unfolding_all decide

/-- **C7 amended** — on the pre-merged path an empty-text detection is fully
inert: deleting it anywhere from an all-2-tuple list leaves the result unchanged
(it contributes no characters and no separator). On the geometric path it likewise
contributes no characters and no space, but it still participates in clustering
(see the counterexample), so it is not inert there. -/
theorem c7_amended_empty_text_inert_on_premerged :
    ∀ (l₁ l₂ : List EasyOCRItem) (c : ℚ) (width height : Nat),
      (∀ i ∈ l₁ ++ l₂, i.len = 2) →
      process_easyocr_result (l₁ ++ .pre "" c :: l₂) width height =
        process_easyocr_result (l₁ ++ l₂) width height := by
  intro l₁ l₂ c width height h2
  have hstep : preFold ("", 0, 0) (l₁ ++ .pre "" c :: l₂) =
      preFold ("", 0, 0) (l₁ ++ l₂) := by
    unfold preFold
    rw [List.foldl_append, List.foldl_append]
    rfl
  by_cases hnil : l₁ ++ l₂ = []
  · obtain ⟨h1, h2'⟩ := List.append_eq_nil.mp hnil
    subst h1
    subst h2'
    rfl
  · have hne₁ : l₁ ++ .pre "" c :: l₂ ≠ [] := by
      intro h
      rcases List.append_eq_nil.mp h with ⟨-, h⟩
      exact List.cons_ne_nil _ _ h
    have hi₁ : (l₁ ++ .pre "" c :: l₂).isEmpty = false := List.isEmpty_eq_false.mpr hne₁
    have hi₂ : (l₁ ++ l₂).isEmpty = false := List.isEmpty_eq_false.mpr hnil
    have hall₁ : (l₁ ++ .pre "" c :: l₂).all (fun item => item.len == 2) = true := by
      refine List.all_eq_true.mpr fun i hi => ?_
      rcases List.mem_append.mp hi with h | h
      · simp [h2 i (List.mem_append.mpr (Or.inl h))]
      · rcases List.mem_cons.mp h with rfl | h
        · rfl
        · simp [h2 i (List.mem_append.mpr (Or.inr h))]
    have hall₂ : (l₁ ++ l₂).all (fun item => item.len == 2) = true :=
      List.all_eq_true.mpr fun i hi => by simp [h2 i hi]
    simp only [process_easyocr_result, hi₁, hi₂, hall₁, hall₂, if_true, if_false,
      Bool.false_eq_true, hstep]

/-- Witness for C7's amended theorem: deleting `("", 0.5)` from the middle of a
pre-merged list leaves the result unchanged. -/
theorem c7_amended_empty_text_inert_on_premerged_witness :
    (∀ i ∈ ([.pre "x" 1] ++ [.pre "y" 1] : List EasyOCRItem), i.len = 2) ∧
    process_easyocr_result ([.pre "x" 1] ++ .pre "" (1 / 2) :: [.pre "y" 1]) 800 600 =
      process_easyocr_result ([.pre "x" 1] ++ [.pre "y" 1]) 800 600 :=
  ⟨by with_unfolding_all decide,
    c7_amended_empty_text_inert_on_premerged [.pre "x" 1] [.pre "y" 1] (1 / 2) 800 600
      (by with_unfolding_all decide)⟩

/-! ### C8: no quadrilateral-arity validation (corrected) -/

/-- **C8 counterexample** — a geometric detection whose quadrilateral has 5 points
(not exactly 4) is NOT rejected: the function returns a normal result, raising no
error of any kind. -/
theorem c8_counterexample_five_point_box_accepted :
    process_easyocr_result
        [.geo [⟨0, 0⟩, ⟨1, 0⟩, ⟨2, 0⟩, ⟨3, 0⟩, ⟨4, 0⟩] "x" 1] 800 600 =
      .ok ⟨"x", PLAIN_TEXT_MIME_TYPE, ⟨800, 600⟩, []⟩ ∧
    ∀ e : PyError,
      process_easyocr_result
          [.geo [⟨0, 0⟩, ⟨1, 0⟩, ⟨2, 0⟩, ⟨3, 0⟩, ⟨4, 0⟩] "x" 1] 800 600 ≠
        .error e := by
  have h1 : process_easyocr_result
      [.geo [⟨0, 0⟩, ⟨1, 0⟩, ⟨2, 0⟩, ⟨3, 0⟩, ⟨4, 0⟩] "x" 1] 800 600 =
      .ok ⟨"x", PLAIN_TEXT_MIME_TYPE, ⟨800, 600⟩, []⟩ := by
    with_unfolding_all decide
  refine ⟨h1, fun e h => ?_⟩
  rw [h1] at h
  cases h

lemma mapME_sortKey1_indexError {l : List EasyOCRItem} {i : EasyOCRItem}
    (hi : i ∈ l) (hbad : ∀ q, sortKey1 i ≠ .ok q) :
    mapME sortKey1 l = .error .indexError := by
  cases hm : mapME sortKey1 l with
  | ok ks => exact absurd hm (mapME_ne_ok _ l ⟨i, hi, hbad⟩ ks)
  | error e =>
    obtain ⟨a, ha, hae⟩ := mapME_error_mem _ l e hm
    rw [sortKey1_error_eq a e hae]

lemma geoPath_indexError {l : List EasyOCRItem} {i : EasyOCRItem}
    (hi : i ∈ l) (hbad : ∀ q, sortKey1 i ≠ .ok q) (width height : Nat) :
    geoPath l width height = .error .indexError := by
  simp [geoPath, pySorted, mapME_sortKey1_indexError hi hbad]

lemma composeGeo_ok :
    ∀ (gs : List (List GeoT)) (acc : String × ℚ × Nat),
      (∀ g ∈ gs, ∀ d ∈ g, d.1 ≠ []) → ∃ r, composeGeo gs acc = .ok r := by
  intro gs
  induction gs with
  | nil => intro acc _; exact ⟨acc, rfl⟩
  | cons line rest ih =>
    intro acc h
    have hkeys : ∀ d ∈ line, ∃ q, xKeyE d = .ok q := by
      intro d hd
      have hne : d.1 ≠ [] := h line (by simp) d hd
      cases hd1 : d.1 with
      | nil => exact absurd hd1 hne
      | cons p ps => exact ⟨p.x, by simp [xKeyE, pyIndex, hd1]⟩
    obtain ⟨ks, hks⟩ := mapME_isOk_of_forall xKeyE line hkeys
    have hsorted : pySorted xKeyE line = .ok ((pyKeySort (line.zip ks)).map Prod.fst) := by
      simp [pySorted, hks]
    obtain ⟨r, hr⟩ := ih
      ((composeLineFold acc ((pyKeySort (line.zip ks)).map Prod.fst)).1 ++ "\n",
        (composeLineFold acc ((pyKeySort (line.zip ks)).map Prod.fst)).2.1,
        (composeLineFold acc ((pyKeySort (line.zip ks)).map Prod.fst)).2.2)
      fun g hg d hd => h g (by simp [hg]) d hd
    refine ⟨r, ?_⟩
    simp only [composeGeo, hsorted]
    exact hr

/-- **C8 amended** — the code performs no quadrilateral-arity validation. A
geometric list whose boxes all have at least 3 points (4 included, but also 5 or
more) is processed to a normal result; only a box with fewer than 3 points makes
the line-249 sort key raise IndexError — an out-of-range indexing error, not a
structural-validation error. -/
theorem c8_amended_no_arity_validation :
    (∀ (l : List EasyOCRItem) (width height : Nat), l ≠ [] →
      (∀ i ∈ l, i.len = 3 ∧ 3 ≤ i.quadLen) →
      ∃ r, process_easyocr_result l width height = .ok r) ∧
    (∀ (l : List EasyOCRItem) (width height : Nat),
      (∀ i ∈ l, i.len = 3) → (∃ i ∈ l, i.quadLen < 3) →
      process_easyocr_result l width height = .error .indexError) := by
  constructor
  · intro l width height hne hwf
    obtain ⟨j, hj⟩ := List.exists_mem_of_ne_nil l hne
    rw [process_geo_branch width height hne hj (hwf j hj).1]
    have hwf' : ∀ i ∈ l, GeoWF i := fun i hi => ⟨(hwf i hi).1, (hwf i hi).2⟩
    unfold geoPath
    rw [pySorted_wf hwf']
    set s := (pyKeySort (l.map fun i => (i, vKeyP i))).map Prod.fst with hs
    have hsp : s.Perm l := by
      have h1 : s.Perm ((l.map fun i => (i, vKeyP i)).map Prod.fst) :=
        (pyKeySort_perm _).map Prod.fst
      rw [List.map_map] at h1
      have : ((Prod.fst ∘ fun i => (i, vKeyP i)) : EasyOCRItem → EasyOCRItem) = id := by
        funext i
        rfl
      rw [this, List.map_id] at h1
      exact h1
    have hsmem : ∀ i ∈ s, GeoWF i := fun i hi => hwf' i (hsp.mem_iff.mp hi)
    obtain ⟨gs, hgs⟩ := clusterLoop_ok_of_geo s none [] [] fun i hi => (hsmem i hi).1
    have hboxes : ∀ g ∈ gs, ∀ d ∈ g, d.1 ≠ [] := by
      refine clusterLoop_mem _ s none [] [] gs (fun g hg => absurd hg (List.not_mem_nil g))
        (fun d hd => absurd hd (List.not_mem_nil d)) ?_ hgs
      intro i hi d hd
      cases i with
      | pre t c => exact absurd hd (by simp [unpack3])
      | geo b t c =>
        have hb : (3 : Nat) ≤ b.length := (hsmem _ hi).2
        have hd' : Except.ok (b, t, c) = Except.ok d := hd
        injection hd' with hd''
        rw [← hd'']
        intro hbnil
        have hb0 : b = [] := hbnil
        rw [hb0] at hb
        simp at hb
    obtain ⟨r, hr⟩ := composeGeo_ok gs ("", 0, 0) hboxes
    refine ⟨⟨normalize_spaces r.1, PLAIN_TEXT_MIME_TYPE, ⟨width, height⟩, []⟩, ?_⟩
    simp only [geoTail, hgs]
    rw [hr]
  · intro l width height h3 hshort
    obtain ⟨i, hi, hiq⟩ := hshort
    obtain ⟨b, t, c, rfl⟩ : ∃ b t c, i = .geo b t c := by
      cases i with
      | pre t c => exact absurd (h3 _ hi) (by simp [EasyOCRItem.len])
      | geo b t c => exact ⟨b, t, c, rfl⟩
    have hbad : ∀ q, sortKey1 (.geo b t c) ≠ .ok q := by
      intro q h
      rw [sortKey1_short b t c hiq] at h
      cases h
    have hne : l ≠ [] := fun h => absurd (h ▸ hi) (List.not_mem_nil _)
    rw [process_geo_branch width height hne hi (h3 _ hi)]
    exact geoPath_indexError hi hbad width height

/-- Witness for C8's amended theorem: a 4-point box is processed normally, a
1-point box raises IndexError. -/
theorem c8_amended_no_arity_validation_witness :
    ((([.geo (flatBox 0 0) "x" 1] : List EasyOCRItem) ≠ [] ∧
        ∀ i ∈ ([.geo (flatBox 0 0) "x" 1] : List EasyOCRItem),
          i.len = 3 ∧ 3 ≤ i.quadLen) ∧
      ∃ r, process_easyocr_result [.geo (flatBox 0 0) "x" 1] 800 600 = .ok r) ∧
    ((∀ i ∈ ([.geo [⟨0, 0⟩] "y" 1] : List EasyOCRItem), i.len = 3) ∧
        (∃ i ∈ ([.geo [⟨0, 0⟩] "y" 1] : List EasyOCRItem), i.quadLen < 3) ∧
      process_easyocr_result [.geo [⟨0, 0⟩] "y" 1] 800 600 = .error .indexError) :=
  ⟨⟨⟨by simp, by with_unfolding_all decide⟩,
      c8_amended_no_arity_validation.1 [.geo (flatBox 0 0) "x" 1] 800 600 (by simp)
        (by with_unfolding_all decide)⟩,
    ⟨by with_unfolding_all decide, by with_unfolding_all decide,
      c8_amended_no_arity_validation.2 [.geo [⟨0, 0⟩] "y" 1] 800 600
        (by with_unfolding_all decide) (by with_unfolding_all decide)⟩⟩

/-! ### C9: mixed-shape input (corrected) -/

/-- **C9 counterexample** — a mixed list (one 2-tuple, one 3-tuple) is not
rejected with a validation error: the geometric path's sort key raises a plain
IndexError while indexing into the 2-tuple's text string. -/
theorem c9_counterexample_mixed_raises_index_error :
    process_easyocr_result [.pre "Hello" (9 / 10), .geo (flatBox 0 0) "x" 1] 800 600 =
      .error .indexError ∧
    (Except.error PyError.indexError : Except PyError ExtractionResult) ≠
      .error .validationError :=
  ⟨by with_unfolding_all decide, by decide⟩

/-- **C9 amended** — mixed-shape input is indeed never processed to a result on
either path, but not through an explicit validation error: since not all elements
are 2-tuples, the list falls through to the geometric path, whose sort-key
computation raises IndexError on the first 2-tuple element encountered. -/
theorem c9_amended_mixed_falls_to_geo_and_raises :
    ∀ (l : List EasyOCRItem) (width height : Nat),
      (∃ i ∈ l, i.len = 2) → (∃ j ∈ l, j.len = 3) →
      process_easyocr_result l width height = .error .indexError := by
  intro l width height hpre hgeo
  obtain ⟨i, hi, hi2⟩ := hpre
  obtain ⟨j, hj, hj3⟩ := hgeo
  obtain ⟨t, c, rfl⟩ : ∃ t c, i = .pre t c := by
    cases i with
    | pre t c => exact ⟨t, c, rfl⟩
    | geo b t c => exact absurd hi2 (by simp [EasyOCRItem.len])
  have hne : l ≠ [] := fun h => absurd (h ▸ hi) (List.not_mem_nil _)
  rw [process_geo_branch width height hne hj hj3]
  refine geoPath_indexError hi ?_ width height
  intro q h
  rw [sortKey1_pre] at h
  cases h

/-- Witness for C9's amended theorem at a concrete mixed list. -/
theorem c9_amended_mixed_falls_to_geo_and_raises_witness :
    ((∃ i ∈ ([.pre "Hi" 1, .geo (flatBox 0 0) "x" 1] : List EasyOCRItem), i.len = 2) ∧
      ∃ j ∈ ([.pre "Hi" 1, .geo (flatBox 0 0) "x" 1] : List EasyOCRItem), j.len = 3) ∧
    process_easyocr_result [.pre "Hi" 1, .geo (flatBox 0 0) "x" 1] 800 600 =
      .error .indexError :=
  ⟨⟨by with_unfolding_all decide, by with_unfolding_all decide⟩,
    c9_amended_mixed_falls_to_geo_and_raises [.pre "Hi" 1, .geo (flatBox 0 0) "x" 1]
      800 600 (by with_unfolding_all decide) (by with_unfolding_all decide)⟩

/-! ### C10: confidence values never influence the output -/

lemma pySorted_map_inv {α : Type*} (φ : α → α) (f : α → Except PyError ℚ)
    (hf : ∀ a, f (φ a) = f a) (l : List α) :
    pySorted f (l.map φ) = Except.map (List.map φ) (pySorted f l) := by
  have hm : mapME f (l.map φ) = mapME f l := by
    induction l with
    | nil => rfl
    | cons a l ih => simp [mapME, hf a, ih]
  unfold pySorted
  cases hk : mapME f l with
  | error e => rw [hm, hk]; rfl
  | ok ks =>
    rw [hm, hk]
    show Except.ok (((l.map φ).zip ks |> pyKeySort).map Prod.fst) =
      Except.map (List.map φ) (.ok ((pyKeySort (l.zip ks)).map Prod.fst))
    rw [except_map_ok, List.zip_map_left]
    have hcomm :
        pyKeySort ((l.zip ks).map (Prod.map φ id)) =
          (pyKeySort (l.zip ks)).map (Prod.map φ id) :=
      insertionSort_map sndLE sndLE (Prod.map φ id) (fun p q => Iff.rfl) _
    rw [hcomm, List.map_map, List.map_map]
    exact congrArg Except.ok (List.map_congr_left fun p _ => rfl)

lemma stripConf_len (i : EasyOCRItem) : (stripConf i).len = i.len := by
  cases i <;> rfl

lemma sortKey1_stripConf (i : EasyOCRItem) : sortKey1 (stripConf i) = sortKey1 i := by
  cases i <;> rfl

lemma unpack3_stripConf (i : EasyOCRItem) :
    unpack3 (stripConf i) = Except.map stripGeoConf (unpack3 i) := by
  cases i <;> rfl

lemma flush_stripConf (groups : List (List GeoT)) (cur : List GeoT) :
    (if (cur.map stripGeoConf).isEmpty then groups.map (List.map stripGeoConf)
      else groups.map (List.map stripGeoConf) ++ [cur.map stripGeoConf]) =
      (if cur.isEmpty then groups else groups ++ [cur]).map (List.map stripGeoConf) := by
  cases cur <;> simp

lemma clusterLoop_stripConf :
    ∀ (l : List EasyOCRItem) (prevY : Option ℚ) (groups : List (List GeoT))
      (cur : List GeoT),
      clusterLoop (l.map stripConf) prevY (groups.map (List.map stripGeoConf))
          (cur.map stripGeoConf) =
        Except.map (List.map (List.map stripGeoConf)) (clusterLoop l prevY groups cur) := by
  intro l
  induction l with
  | nil =>
    intro prevY groups cur
    rw [List.map_nil, clusterLoop_nil, clusterLoop_nil, except_map_ok, flush_stripConf]
  | cons item rest ih =>
    intro prevY groups cur
    cases hu : unpack3 item with
    | error e =>
      have hu' : unpack3 (stripConf item) = .error e := by
        rw [unpack3_stripConf, hu]
        rfl
      rw [List.map_cons]
      show (match unpack3 (stripConf item) with
        | .error e => (.error e : Except PyError (List (List GeoT)))
        | .ok g => _) = _
      rw [hu']
      show (Except.error e : Except PyError (List (List GeoT))) = _
      rw [clusterLoop, hu]
      rfl
    | ok d =>
      have hu' : unpack3 (stripConf item) = .ok (stripGeoConf d) := by
        rw [unpack3_stripConf, hu]
        rfl
      rw [List.map_cons, clusterLoop_cons_ok (rest.map stripConf) prevY _ _ hu',
        clusterLoop_cons_ok rest prevY groups cur hu]
      have hyc : yCenterOf (stripGeoConf d).1 = yCenterOf d.1 := rfl
      rw [hyc]
      generalize (match prevY with
        | none => true
        | some p => decide (|yCenterOf d.1 - p| > 20)) = cond
      cases cond with
      | true =>
        rw [if_pos rfl, if_pos rfl, flush_stripConf]
        have hsingle : ([stripGeoConf d] : List GeoT) = [d].map stripGeoConf := rfl
        rw [hsingle]
        exact ih _ _ _
      | false =>
        rw [if_neg (by simp), if_neg (by simp)]
        have happ : cur.map stripGeoConf ++ [stripGeoConf d] =
            (cur ++ [d]).map stripGeoConf := by
          rw [List.map_append]
          rfl
        rw [happ]
        exact ih _ _ _

lemma xKeyE_stripGeoConf (g : GeoT) : xKeyE (stripGeoConf g) = xKeyE g := rfl

lemma composeLineFold_fst :
    ∀ (line : List GeoT) (acc acc' : String × ℚ × Nat), acc.1 = acc'.1 →
      (composeLineFold acc (line.map stripGeoConf)).1 = (composeLineFold acc' line).1 := by
  intro line
  induction line with
  | nil => intro acc acc' h; exact h
  | cons g rest ih =>
    intro acc acc' h
    show (composeLineFold
        (if (stripGeoConf g).2.1 = "" then acc
          else (acc.1 ++ (stripGeoConf g).2.1 ++ " ", acc.2.1 + (stripGeoConf g).2.2,
            acc.2.2 + 1)) (rest.map stripGeoConf)).1 =
      (composeLineFold
        (if g.2.1 = "" then acc'
          else (acc'.1 ++ g.2.1 ++ " ", acc'.2.1 + g.2.2, acc'.2.2 + 1)) rest).1
    have hst : (stripGeoConf g).2.1 = g.2.1 := rfl
    rw [hst]
    by_cases hg : g.2.1 = ""
    · rw [if_pos hg, if_pos hg]
      exact ih acc acc' h
    · rw [if_neg hg, if_neg hg]
      refine ih _ _ ?_
      show acc.1 ++ g.2.1 ++ " " = acc'.1 ++ g.2.1 ++ " "
      rw [h]

lemma composeGeo_stripConf :
    ∀ (gs : List (List GeoT)) (acc acc' : String × ℚ × Nat), acc.1 = acc'.1 →
      Except.map (fun r : String × ℚ × Nat => r.1)
          (composeGeo (gs.map (List.map stripGeoConf)) acc) =
        Except.map (fun r : String × ℚ × Nat => r.1) (composeGeo gs acc') := by
  intro gs
  induction gs with
  | nil =>
    intro acc acc' h
    show Except.ok acc.1 = Except.ok acc'.1
    rw [h]
  | cons line rest ih =>
    intro acc acc' h
    have hsorted : pySorted xKeyE (line.map stripGeoConf) =
        Except.map (List.map stripGeoConf) (pySorted xKeyE line) :=
      pySorted_map_inv stripGeoConf xKeyE xKeyE_stripGeoConf line
    cases hps : pySorted xKeyE line with
    | error e =>
      have hps' : pySorted xKeyE (line.map stripGeoConf) = .error e := by
        rw [hsorted, hps]
        rfl
      show Except.map _ (match pySorted xKeyE (line.map stripGeoConf) with
        | .error e => (.error e : Except PyError (String × ℚ × Nat))
        | .ok lineSorted => _) = Except.map _ (match pySorted xKeyE line with
        | .error e => (.error e : Except PyError (String × ℚ × Nat))
        | .ok lineSorted => _)
      rw [hps, hps']
    | ok ls =>
      have hps' : pySorted xKeyE (line.map stripGeoConf) = .ok (ls.map stripGeoConf) := by
        rw [hsorted, hps]
        rfl
      show Except.map _ (match pySorted xKeyE (line.map stripGeoConf) with
        | .error e => (.error e : Except PyError (String × ℚ × Nat))
        | .ok lineSorted =>
          composeGeo (rest.map (List.map stripGeoConf))
            ((composeLineFold acc lineSorted).1 ++ "\n",
              (composeLineFold acc lineSorted).2.1, (composeLineFold acc lineSorted).2.2)) =
        Except.map _ (match pySorted xKeyE line with
        | .error e => (.error e : Except PyError (String × ℚ × Nat))
        | .ok lineSorted =>
          composeGeo rest
            ((composeLineFold acc' lineSorted).1 ++ "\n",
              (composeLineFold acc' lineSorted).2.1, (composeLineFold acc' lineSorted).2.2))
      rw [hps, hps']
      refine ih _ _ ?_
      show (composeLineFold acc (ls.map stripGeoConf)).1 ++ "\n" =
        (composeLineFold acc' ls).1 ++ "\n"
      rw [composeLineFold_fst ls acc acc' h]

lemma except_map_fst_eq_cases {x y : Except PyError (String × ℚ × Nat)}
    (h : Except.map (fun r : String × ℚ × Nat => r.1) x =
      Except.map (fun r : String × ℚ × Nat => r.1) y) :
    (∃ e, x = .error e ∧ y = .error e) ∨
      ∃ r r', x = .ok r ∧ y = .ok r' ∧ r.1 = r'.1 := by
  cases x with
  | error e =>
    cases y with
    | error e' =>
      rw [except_map_error, except_map_error] at h
      injection h with h
      exact Or.inl ⟨e, rfl, by rw [h]⟩
    | ok r => rw [except_map_error, except_map_ok] at h; cases h
  | ok r =>
    cases y with
    | error e => rw [except_map_ok, except_map_error] at h; cases h
    | ok r' =>
      rw [except_map_ok, except_map_ok] at h
      injection h with h
      exact Or.inr ⟨r, r', rfl, rfl, h⟩

lemma geoTail_stripConf (s : List EasyOCRItem) (width height : Nat) :
    geoTail (s.map stripConf) width height = geoTail s width height := by
  unfold geoTail
  have hcl := clusterLoop_stripConf s none [] []
  cases hc : clusterLoop s none [] [] with
  | error e =>
    rw [hc] at hcl
    have hcl' : clusterLoop (s.map stripConf) none [] [] = .error e := hcl
    rw [hcl']
  | ok gs =>
    rw [hc] at hcl
    have hcl' : clusterLoop (s.map stripConf) none [] [] =
        .ok (gs.map (List.map stripGeoConf)) := hcl
    rw [hcl']
    show (match composeGeo (gs.map (List.map stripGeoConf)) ("", 0, 0) with
      | .error e => (.error e : Except PyError ExtractionResult)
      | .ok composed => .ok ⟨normalize_spaces composed.1, PLAIN_TEXT_MIME_TYPE,
          ⟨width, height⟩, []⟩) =
      match composeGeo gs ("", 0, 0) with
      | .error e => (.error e : Except PyError ExtractionResult)
      | .ok composed => .ok ⟨normalize_spaces composed.1, PLAIN_TEXT_MIME_TYPE,
          ⟨width, height⟩, []⟩
    have hcomp := composeGeo_stripConf gs ("", 0, 0) ("", 0, 0) rfl
    rcases except_map_fst_eq_cases hcomp with ⟨e, hx, hy⟩ | ⟨r, r', hx, hy, hrr⟩
    · rw [hx, hy]
    · rw [hx, hy]
      show Except.ok _ = Except.ok _
      rw [hrr]

lemma process_stripConf (l : List EasyOCRItem) (width height : Nat) :
    process_easyocr_result (l.map stripConf) width height =
      process_easyocr_result l width height := by
  cases l with
  | nil => rfl
  | cons i l' =>
    have hall : ((i :: l').map stripConf).all (fun item => item.len == 2) =
        (i :: l').all (fun item => item.len == 2) := by
      rw [List.all_map]
      congr 1
      funext j
      simp [stripConf_len]
    have hi₁ : ((i :: l').map stripConf).isEmpty = false := rfl
    have hi₂ : (i :: l').isEmpty = false := rfl
    cases hb : (i :: l').all (fun item => item.len == 2) with
    | true =>
      have hfold : ∀ (m : List EasyOCRItem) (acc acc' : String × ℚ × Nat),
          acc.1 = acc'.1 → (preFold acc (m.map stripConf)).1 = (preFold acc' m).1 := by
        intro m
        induction m with
        | nil => intro acc acc' h; exact h
        | cons j m ih =>
          intro acc acc' h
          cases j with
          | geo b t c => exact ih _ _ h
          | pre t c =>
            show (preFold (if t = "" then acc else
                (acc.1 ++ t ++ "\n", acc.2.1 + 0, acc.2.2 + 1)) (m.map stripConf)).1 =
              (preFold (if t = "" then acc' else
                (acc'.1 ++ t ++ "\n", acc'.2.1 + c, acc'.2.2 + 1)) m).1
            by_cases ht : t = ""
            · rw [if_pos ht, if_pos ht]
              exact ih _ _ h
            · rw [if_neg ht, if_neg ht]
              refine ih _ _ ?_
              show acc.1 ++ t ++ "\n" = acc'.1 ++ t ++ "\n"
              rw [h]
      simp only [process_easyocr_result, hi₁, hi₂, hall, hb, if_true, if_false]
      rw [hfold (i :: l') ("", 0, 0) ("", 0, 0) rfl]
    | false =>
      simp only [process_easyocr_result, hi₁, hi₂, hall, hb, Bool.false_eq_true,
        if_false]
      unfold geoPath
      have hps : pySorted sortKey1 ((i :: l').map stripConf) =
          Except.map (List.map stripConf) (pySorted sortKey1 (i :: l')) :=
        pySorted_map_inv stripConf sortKey1 sortKey1_stripConf (i :: l')
      cases hk : pySorted sortKey1 (i :: l') with
      | error e =>
        rw [hk] at hps
        have hps' : pySorted sortKey1 ((i :: l').map stripConf) = .error e := hps
        rw [hps']
      | ok s =>
        rw [hk] at hps
        have hps' : pySorted sortKey1 ((i :: l').map stripConf) =
            .ok (s.map stripConf) := hps
        rw [hps']
        show geoTail (s.map stripConf) width height = geoTail s width height
        exact geoTail_stripConf s width height

/-- **C10** — the output of `_process_easyocr_result` never depends on the
confidence values: two inputs that agree element-wise on shape, box and text (and
may differ arbitrarily in every confidence) produce identical results on every
path. The confidence sums and counts the code accumulates are dead values. -/
theorem c10_confidence_never_influences_output (l₁ l₂ : List EasyOCRItem)
    (width height : Nat) (h : l₁.map stripConf = l₂.map stripConf) :
    process_easyocr_result l₁ width height = process_easyocr_result l₂ width height := by
  rw [← process_stripConf l₁, h, process_stripConf]

/-- Witness for C10: the same texts with different confidences give the same
result. -/
theorem c10_confidence_never_influences_output_witness :
    (([.pre "abc" (9 / 10), .geo (flatBox 0 0) "d" (1 / 2)] : List EasyOCRItem).map
        stripConf =
      ([.pre "abc" (1 / 3), .geo (flatBox 0 0) "d" 1] : List EasyOCRItem).map
        stripConf) ∧
    process_easyocr_result [.pre "abc" (9 / 10), .geo (flatBox 0 0) "d" (1 / 2)]
        800 600 =
      process_easyocr_result [.pre "abc" (1 / 3), .geo (flatBox 0 0) "d" 1] 800 600 :=
  ⟨by with_unfolding_all decide,
    c10_confidence_never_influences_output
      [.pre "abc" (9 / 10), .geo (flatBox 0 0) "d" (1 / 2)]
      [.pre "abc" (1 / 3), .geo (flatBox 0 0) "d" 1] 800 600
      (by with_unfolding_all decide)⟩

